import Mathlib

/-!
Verification of the PPDAE training pipeline against its specification.

The development shallowly embeds the two source modules:

* `src/vae_training.py` : the `Trainer` class (beta-annealing schedule,
  VAE loss computation, per-step loss bookkeeping, train/test epochs).
* `src/dataset.py` : augmentation transforms (`MyRotationTransform`,
  `MyFlipVerticalTransform`), the `ProtoPlanetaryDisks` dataset
  (host dispatch and train/test index split) and the `MNIST` wrapper.

Python floats are modelled as rationals where the code only performs
field operations and comparisons, and as reals where `exp` is involved.
Tensors are modelled as flat lists of reals (a `torch.sum` or elementwise
operation does not depend on the shape) or, for image-plane operations,
as functions `Fin h → Fin w → α`.  Randomness (`np.random.uniform`,
`np.random.choice`, `np.random.shuffle`) is passed in explicitly as a
parameter holding the drawn value.
-/

/-- The `beta` constructor argument of `Trainer`: either the string
`"step"` or a numeric constant (the source stores it in `self.beta` and
branches on `self.beta == "step"`, else returns `float(self.beta)`). -/
inductive BetaMode where
  | betaStep
  | betaConst (c : ℚ)

/-- `Trainer._beta_scheduler` (vae_training.py lines 33-37):
`beta0 + gamma * (epoch // step)` in step mode, else the stored constant.
The source defaults are `beta0=0., step=15, gamma=0.2`; here all
arguments are passed explicitly. -/
def beta_scheduler (mode : BetaMode) (epoch : ℕ) (beta0 : ℚ) (stepSize : ℕ) (gamma : ℚ) : ℚ :=
  match mode with
  | .betaStep => beta0 + gamma * ((epoch / stepSize : ℕ) : ℚ)
  | .betaConst c => c

/-- `nn.MSELoss(reduction="mean")` applied to flattened tensors:
the mean of the squared elementwise differences. -/
noncomputable def mse_loss (xhat x : List ℝ) : ℝ :=
  (List.zipWith (fun a b => (a - b) ^ 2) xhat x).sum / (xhat.length : ℝ)

/-- The KL-divergence term of `Trainer._loss` (vae_training.py line 41):
`-0.5 * torch.sum(1 + logvar - mu.pow(2) - logvar.exp())`. -/
noncomputable def kld_term (mu logvar : List ℝ) : ℝ :=
  -(1 / 2) * (List.zipWith (fun m l => 1 + l - m ^ 2 - Real.exp l) mu logvar).sum

/-- One of the two loss-history dictionaries of `Trainer`
(`{"Loss": [], "MSE": [], "KLD": []}`). -/
structure LossHist where
  loss : List ℝ
  mse : List ℝ
  kld : List ℝ

/-- The three appends performed by `Trainer._loss` on one history
dictionary: one value onto each of the `MSE`, `KLD` and `Loss` lists. -/
def pushLoss (h : LossHist) (lossV mseV kldV : ℝ) : LossHist :=
  ⟨h.loss ++ [lossV], h.mse ++ [mseV], h.kld ++ [kldV]⟩

/-- The mutable training-run state held by a `Trainer` instance that the
loss bookkeeping touches: the beta mode and the two history dictionaries,
plus the global step counter. -/
structure TrainerState where
  betaMode : BetaMode
  train_loss : LossHist
  test_loss : LossHist
  num_steps : ℕ

/-- `Trainer._loss` (vae_training.py lines 39-53): computes
`mse = mse_loss(xhat, x)`, `kld_l = -0.5 * sum(1 + logvar - mu^2 - exp(logvar))`,
`loss = mse + beta(ep) * kld_l` (the scheduler is called with its source
defaults `beta0=0, step=15, gamma=0.2`), appends the three scalars to the
train or test history according to the `train` flag, and returns `loss`
together with the updated state. -/
noncomputable def Trainer_loss (st : TrainerState) (x xhat mu logvar : List ℝ)
    (train : Bool) (ep : ℕ) : ℝ × TrainerState :=
  let mse := mse_loss xhat x
  let kld_l := kld_term mu logvar
  let loss := mse + ((beta_scheduler st.betaMode ep 0 15 (1 / 5) : ℚ) : ℝ) * kld_l
  if train then
    (loss, { st with train_loss := pushLoss st.train_loss loss mse kld_l })
  else
    (loss, { st with test_loss := pushLoss st.test_loss loss mse kld_l })

/-- Claim C1: for every reconstruction `xhat`, target `x`, latent mean
`mu`, latent log-variance `logvar` and epoch `ep`, `Trainer._loss`
returns `total = reconstruction + beta(ep) * divergence`, where the
reconstruction term is the mean squared error between `xhat` and `x`
and `divergence = -0.5 * sum(1 + logvar - mu^2 - exp(logvar))` summed
over all elements. -/
theorem Trainer_loss_total_formula (st : TrainerState) (x xhat mu logvar : List ℝ)
    (train : Bool) (ep : ℕ) :
    (Trainer_loss st x xhat mu logvar train ep).1 =
      (List.zipWith (fun a b => (a - b) ^ 2) xhat x).sum / (xhat.length : ℝ)
        + ((beta_scheduler st.betaMode ep 0 15 (1 / 5) : ℚ) : ℝ)
          * (-(1 / 2) * (List.zipWith (fun m l => 1 + l - m ^ 2 - Real.exp l) mu logvar).sum) := by
  cases train <;> rfl

/-- Claim C2: in step mode the beta schedule returns
`beta0 + gamma * floor(epoch / step)` for every non-negative epoch, and
otherwise a fixed constant; epoch 0 returns `beta0` exactly, and with
`step=15, gamma=0.2, beta0=0` the values at epochs 0, 14, 15, 29, 30 are
0.0, 0.0, 0.2, 0.2, 0.4. -/
theorem beta_scheduler_spec :
    (∀ (epoch stepSize : ℕ) (beta0 gamma : ℚ),
        beta_scheduler .betaStep epoch beta0 stepSize gamma
          = beta0 + gamma * ((epoch / stepSize : ℕ) : ℚ))
  ∧ (∀ (epoch stepSize : ℕ) (beta0 gamma c : ℚ),
        beta_scheduler (.betaConst c) epoch beta0 stepSize gamma = c)
  ∧ (∀ (stepSize : ℕ) (beta0 gamma : ℚ),
        beta_scheduler .betaStep 0 beta0 stepSize gamma = beta0)
  ∧ beta_scheduler .betaStep 0 0 15 (0.2 : ℚ) = 0.0
  ∧ beta_scheduler .betaStep 14 0 15 (0.2 : ℚ) = 0.0
  ∧ beta_scheduler .betaStep 15 0 15 (0.2 : ℚ) = 0.2
  ∧ beta_scheduler .betaStep 29 0 15 (0.2 : ℚ) = 0.2
  ∧ beta_scheduler .betaStep 30 0 15 (0.2 : ℚ) = 0.4 := by
  refine ⟨fun _ _ _ _ => rfl, fun _ _ _ _ _ => rfl, ?_, ?_, ?_, ?_, ?_, ?_⟩ <;>
    simp [beta_scheduler] <;> norm_num

/-- The elementwise summand of the KL term is never positive:
`1 + l - m^2 - exp l ≤ 0`. -/
lemma kldElt_nonpos (m l : ℝ) : 1 + l - m ^ 2 - Real.exp l ≤ 0 := by
  have h := Real.add_one_le_exp l
  nlinarith [sq_nonneg m]

/-- The elementwise summand of the KL term vanishes exactly at the
standard normal parameters `m = 0`, `l = 0`. -/
lemma kldElt_eq_zero_iff (m l : ℝ) :
    1 + l - m ^ 2 - Real.exp l = 0 ↔ m = 0 ∧ l = 0 := by
  constructor
  · intro h
    have hl : l = 0 := by
      by_contra hl
      have hlt := Real.add_one_lt_exp hl
      nlinarith [sq_nonneg m]
    refine ⟨?_, hl⟩
    have : m ^ 2 = 0 := by
      rw [hl] at h
      simpa [Real.exp_zero] using h
    exact pow_eq_zero_iff (n := 2) (by norm_num) |>.mp this
  · rintro ⟨hm, hl⟩
    simp [hm, hl, Real.exp_zero]

lemma kld_sum_nonpos : ∀ (mu lv : List ℝ),
    (List.zipWith (fun m l => 1 + l - m ^ 2 - Real.exp l) mu lv).sum ≤ 0
  | [], _ => by simp
  | _ :: _, [] => by simp
  | m :: mus, l :: lvs => by
    have hh := kldElt_nonpos m l
    have ht := kld_sum_nonpos mus lvs
    simpa using add_nonpos hh ht

lemma kld_sum_eq_zero_iff : ∀ (mu lv : List ℝ),
    (List.zipWith (fun m l => 1 + l - m ^ 2 - Real.exp l) mu lv).sum = 0
      ↔ ∀ p ∈ mu.zip lv, p.1 = 0 ∧ p.2 = 0
  | [], lv => by simp
  | m :: mus, [] => by simp
  | m :: mus, l :: lvs => by
    have hh := kldElt_nonpos m l
    have ht := kld_sum_nonpos mus lvs
    have ihh := kld_sum_eq_zero_iff mus lvs
    constructor
    · intro h
      have h1 : 1 + l - m ^ 2 - Real.exp l = 0 := by
        simp only [List.zipWith_cons_cons, List.sum_cons] at h
        linarith
      have h2 : (List.zipWith (fun m l => 1 + l - m ^ 2 - Real.exp l) mus lvs).sum = 0 := by
        simp only [List.zipWith_cons_cons, List.sum_cons] at h
        linarith
      obtain ⟨hm, hl⟩ := (kldElt_eq_zero_iff m l).mp h1
      intro p hp
      rcases List.mem_cons.mp hp with hp0 | hp1
      · subst hp0; exact ⟨hm, hl⟩
      · exact ihh.mp h2 p hp1
    · intro h
      obtain ⟨hm, hl⟩ := h (m, l) (List.mem_cons_self _ _)
      have h2 : (List.zipWith (fun m l => 1 + l - m ^ 2 - Real.exp l) mus lvs).sum = 0 :=
        ihh.mpr fun p hp => h p (List.mem_cons_of_mem _ hp)
      simp only [List.zipWith_cons_cons, List.sum_cons, h2, add_zero]
      exact (kldElt_eq_zero_iff m l).mpr ⟨hm, hl⟩

lemma kld_sum_replicate_zero (n : ℕ) :
    (List.zipWith (fun m l => 1 + l - m ^ 2 - Real.exp l)
      (List.replicate n (0 : ℝ)) (List.replicate n (0 : ℝ))).sum = 0 := by
  induction n with
  | zero => simp
  | succ k ih =>
    simp only [List.replicate_succ, List.zipWith_cons_cons, List.sum_cons, ih]
    simp [Real.exp_zero]

/-- Claim C7: when `mu` and `logvar` are all-zero tensors of any shape
the divergence term `-0.5 * sum(1 + logvar - mu^2 - exp(logvar))` is
exactly 0; zero is its minimum, attained only when every element of the
latent distribution matches the standard normal (`mu = 0` and
`logvar = 0` elementwise). -/
theorem kld_term_zero_minimum :
    (∀ n : ℕ, kld_term (List.replicate n 0) (List.replicate n 0) = 0)
  ∧ (∀ mu logvar : List ℝ, mu.length = logvar.length →
      0 ≤ kld_term mu logvar
      ∧ (kld_term mu logvar = 0 ↔ ∀ p ∈ mu.zip logvar, p.1 = 0 ∧ p.2 = 0)) := by
  constructor
  · intro n
    unfold kld_term
    rw [kld_sum_replicate_zero]
    ring
  · intro mu logvar _
    have hs := kld_sum_nonpos mu logvar
    constructor
    · unfold kld_term
      linarith
    · unfold kld_term
      rw [← kld_sum_eq_zero_iff mu logvar]
      constructor
      · intro h; linarith
      · intro h; rw [h]; ring

/-- Witness for C7 at `mu = [0]`, `logvar = [0]`. -/
theorem kld_term_zero_minimum_witness :
    0 ≤ kld_term [0] [0]
    ∧ (kld_term [0] [0] = 0 ↔ ∀ p ∈ ([(0 : ℝ)].zip [(0 : ℝ)]), p.1 = 0 ∧ p.2 = 0) :=
  kld_term_zero_minimum.2 [0] [0] rfl

/-- `ProtoPlanetaryDisks.get_dataloader` (dataset.py lines 100-129),
index-split part.  When `test_split == 0.` the source builds one loader
over the whole dataset (all `N` indices) and returns `None` for the test
loader.  Otherwise it takes `indices = list(range(N))`, optionally
shuffled in place by `np.random.shuffle`, sets
`split = int(np.floor(test_split * N))`, and returns samplers over
`indices[split:]` (train) and `indices[:split]` (test).  The possibly
shuffled index list is the explicit `indices` argument here; with
`shuffle=False` it is `List.range N`. -/
def get_dataloader_split (N : ℕ) (f : ℚ) (indices : List ℕ) : List ℕ × Option (List ℕ) :=
  if f = 0 then (List.range N, none)
  else
    (indices.drop (⌊f * (N : ℚ)⌋).toNat, some (indices.take (⌊f * (N : ℚ)⌋).toNat))

/-- Claim C3: for a dataset of `N` samples and a test fraction
`0 < f ≤ 1`, the index split produces two disjoint index sets whose
union is `{0..N-1}`, with `|test| = floor(f * N)` and
`|train| = N - |test|`; and when `f = 0` the test set is empty (`none`)
and all `N` indices go to train. -/
theorem get_dataloader_split_spec :
    (∀ (N : ℕ) (f : ℚ) (indices : List ℕ),
        indices.Perm (List.range N) → 0 < f → f ≤ 1 →
        ∃ te,
          (get_dataloader_split N f indices).2 = some te
          ∧ te.length = (⌊f * (N : ℚ)⌋).toNat
          ∧ (get_dataloader_split N f indices).1.length = N - te.length
          ∧ (∀ i ∈ te, i ∉ (get_dataloader_split N f indices).1)
          ∧ ((get_dataloader_split N f indices).1 ++ te).Perm (List.range N))
  ∧ (∀ (N : ℕ) (indices : List ℕ),
        get_dataloader_split N 0 indices = (List.range N, none)) := by
  constructor
  · intro N f indices hperm hf0 hf1
    have hne : ¬ f = 0 := ne_of_gt hf0
    simp only [get_dataloader_split, if_neg hne]
    set k := (⌊f * (N : ℚ)⌋).toNat with hk
    have hlen : indices.length = N := by
      simpa [List.length_range] using hperm.length_eq
    have hkN : k ≤ N := by
      have h1 : f * (N : ℚ) ≤ (N : ℚ) :=
        mul_le_of_le_one_left (by positivity) hf1
      have h2 : ⌊f * (N : ℚ)⌋ ≤ (N : ℤ) := by
        have := Int.floor_le_floor h1
        rwa [Int.floor_natCast] at this
      exact Int.toNat_le.mpr h2
    have htake : (indices.take k).length = k := by
      rw [List.length_take, hlen]
      exact min_eq_left hkN
    refine ⟨indices.take k, rfl, htake, ?_, ?_, ?_⟩
    · rw [List.length_drop, hlen, htake]
    · have hnd : indices.Nodup := hperm.nodup_iff.mpr (List.nodup_range N)
      have hnd2 : (indices.take k ++ indices.drop k).Nodup := by
        rw [List.take_append_drop]; exact hnd
      have hdisj := (List.nodup_append.mp hnd2).2.2
      intro i hi hid
      exact hdisj hi hid
    · have e1 : indices.take k ++ indices.drop k = indices :=
        List.take_append_drop k indices
      have p1 : (indices.drop k ++ indices.take k).Perm
          (indices.take k ++ indices.drop k) := List.perm_append_comm
      refine p1.trans ?_
      rw [e1]; exact hperm
  · intro N indices
    simp [get_dataloader_split]

/-- Witness for C3 at `N = 100`, `f = 1/5`, unshuffled indices:
in particular `floor(0.2 * 100) = 20`, so `|test| = 20` and
`|train| = 100 - 20 = 80`. -/
theorem get_dataloader_split_spec_witness :
    (List.range 100).Perm (List.range 100)
    ∧ (0 : ℚ) < 1 / 5 ∧ (1 / 5 : ℚ) ≤ 1
    ∧ (∃ te,
        (get_dataloader_split 100 (1 / 5) (List.range 100)).2 = some te
        ∧ te.length = (⌊(1 / 5 : ℚ) * ((100 : ℕ) : ℚ)⌋).toNat
        ∧ (get_dataloader_split 100 (1 / 5) (List.range 100)).1.length = 100 - te.length
        ∧ (∀ i ∈ te, i ∉ (get_dataloader_split 100 (1 / 5) (List.range 100)).1)
        ∧ ((get_dataloader_split 100 (1 / 5) (List.range 100)).1 ++ te).Perm (List.range 100))
    ∧ (⌊(1 / 5 : ℚ) * ((100 : ℕ) : ℚ)⌋).toNat = 20 :=
  ⟨List.Perm.refl _, by norm_num, by norm_num,
    get_dataloader_split_spec.1 100 (1 / 5) (List.range 100)
      (List.Perm.refl _) (by norm_num) (by norm_num),
    by norm_num; rfl⟩

/-- `np.flip(x, -2)` on an image indexed `[row, column]`: reverses the
row axis. -/
def np_flip_rows {h w : ℕ} (x : Fin h → Fin w → ℝ) : Fin h → Fin w → ℝ :=
  fun i j => x i.rev j

/-- `MyFlipVerticalTransform.__call__` (dataset.py lines 26-36) with the
draw of `np.random.uniform()` passed explicitly as `u` (the caller
guarantees `0 ≤ u < 1`): the source returns the flipped copy when
`u >= self.prob` and the unmodified input otherwise. -/
def MyFlipVerticalTransform_call {h w : ℕ} (prob u : ℚ)
    (x : Fin h → Fin w → ℝ) : Fin h → Fin w → ℝ :=
  if prob ≤ u then np_flip_rows x else x

/-- A concrete 2x1 test image whose rows differ: row `i` holds the
value `i`. -/
def testImage2 : Fin 2 → Fin 1 → ℝ := fun i _ => (i : ℝ)

/-- Refutation of claim C5 as stated: the transform flips when
`u >= prob`, i.e. with probability `1 - prob`.  Concretely, with
`prob = 1.0` and the draw `u = 1/2` (a legal value of
`np.random.uniform()`), the 2x1 image `testImage2` is returned
unflipped, although the claim says `p = 1.0` makes every call flip;
and with `prob = 0.0` the same draw returns the flipped image,
although the claim says `p = 0.0` never flips. -/
theorem MyFlipVerticalTransform_claim_false :
    MyFlipVerticalTransform_call 1 (1 / 2) testImage2 = testImage2
    ∧ MyFlipVerticalTransform_call 0 (1 / 2) testImage2 = np_flip_rows testImage2
    ∧ np_flip_rows testImage2 ≠ testImage2 := by
  refine ⟨?_, ?_, ?_⟩
  · simp only [MyFlipVerticalTransform_call]
    rw [if_neg (by norm_num)]
  · simp only [MyFlipVerticalTransform_call]
    rw [if_pos (by norm_num)]
  · intro hcontra
    have h0 := congrFun (congrFun hcontra 0) 0
    simp [np_flip_rows, testImage2, Fin.rev] at h0

/-- For C5, the code's actual boundary behaviour: for every draw
`0 ≤ u < 1` of `np.random.uniform()`, `prob = 1.0` never flips and
`prob = 0.0` always flips (the source flips exactly when `u ≥ prob`,
so the flip probability is `1 - prob`, not `prob`). -/
theorem MyFlipVerticalTransform_boundary :
    (∀ (h w : ℕ) (x : Fin h → Fin w → ℝ) (u : ℚ), 0 ≤ u → u < 1 →
        MyFlipVerticalTransform_call 1 u x = x)
    ∧ (∀ (h w : ℕ) (x : Fin h → Fin w → ℝ) (u : ℚ), 0 ≤ u → u < 1 →
        MyFlipVerticalTransform_call 0 u x = np_flip_rows x) := by
  constructor
  · intro h w x u _ hu1
    rw [MyFlipVerticalTransform_call, if_neg (by linarith)]
  · intro h w x u hu0 _
    rw [MyFlipVerticalTransform_call, if_pos hu0]

/-- Witness for the boundary theorem at `u = 1/2` on a 1x1 image. -/
theorem MyFlipVerticalTransform_boundary_witness :
    (0 : ℚ) ≤ 1 / 2 ∧ (1 / 2 : ℚ) < 1
    ∧ MyFlipVerticalTransform_call 1 (1 / 2)
        (fun _ _ => (0 : ℝ) : Fin 1 → Fin 1 → ℝ) = (fun _ _ => (0 : ℝ))
    ∧ MyFlipVerticalTransform_call 0 (1 / 2)
        (fun _ _ => (0 : ℝ) : Fin 1 → Fin 1 → ℝ)
      = np_flip_rows (fun _ _ => (0 : ℝ)) :=
  ⟨by norm_num, by norm_num,
    MyFlipVerticalTransform_boundary.1 1 1 _ (1 / 2) (by norm_num) (by norm_num),
    MyFlipVerticalTransform_boundary.2 1 1 _ (1 / 2) (by norm_num) (by norm_num)⟩

/-- `np.rot90(x, 1, axes=[-2, -1])` on an `h × w` image: one
counterclockwise quarter turn, `rot90(x)[i, j] = x[j, w - 1 - i]`. -/
def np_rot90 {α : Type} {h w : ℕ} (x : Fin h → Fin w → α) : Fin w → Fin h → α :=
  fun i j => x j i.rev

/-- `MyRotationTransform.__call__` (dataset.py lines 14-23) with the
draw of `np.random.choice([0, 1, 2, 3])` fixed to 1: the call is then
`np.rot90(x, 1, axes=[-2, -1])`. -/
def MyRotationTransform_call1 {α : Type} {h w : ℕ}
    (x : Fin h → Fin w → α) : Fin w → Fin h → α :=
  np_rot90 x

/-- Claim C9: applying the rotation transform four times in sequence,
with the random rotation choice fixed deterministically to 1 on each
call, returns the original image (round trip after 4 x 90 degrees). -/
theorem MyRotationTransform_call1_four_times (h w : ℕ) (x : Fin h → Fin w → ℝ) :
    MyRotationTransform_call1 (MyRotationTransform_call1
      (MyRotationTransform_call1 (MyRotationTransform_call1 x))) = x := by
  funext i j
  simp [MyRotationTransform_call1, np_rot90, Fin.rev_rev]

/-- A Python exception as observed by a caller of the dataset
constructors: either an explicit `raise` of a value (the source raises
the bare string, which CPython turns into a `TypeError`, still an
exception) or the `UnboundLocalError` produced by reading a local
variable that no branch assigned. -/
inductive PyError where
  | raisedValue (msg : String)
  | unboundLocal (name : String)

/-- `colab_root` from dataset.py line 10. -/
def colab_root : String := "/content/drive/My Drive/PPDAE"

/-- `exalearn_root` from dataset.py line 11. -/
def exalearn_root : String := "/home/jorgemarpa/data/PPD"

/-- The host dispatch of `ProtoPlanetaryDisks.__init__` (dataset.py
lines 56-65); `root` is the value of `os.getcwd()`.  The final `else`
branch raises, so an unrecognized machine yields an error. -/
def ProtoPlanetaryDisks_init_path (root machine : String) : Except PyError String :=
  if machine = "local" then .ok (root ++ "/data/PPD")
  else if machine = "colab" then .ok (colab_root ++ "/")
  else if machine = "exalearn" then .ok (exalearn_root ++ "/")
  else .error (.raisedValue "Wrong host, please select local, colab or exalearn")

/-- The host dispatch of `MNIST.__init__` (dataset.py lines 132-140);
`root` is the value of `os.getcwd()`.  This chain has no `else`: an
unrecognized machine leaves `mnist_path` unassigned, and the very next
statement of the constructor reads `mnist_path`, raising
`UnboundLocalError` before anything else runs. -/
def MNIST_init_path (root machine : String) : Except PyError String :=
  if machine = "local" then .ok (root ++ "/data/")
  else if machine = "colab" then .ok (colab_root ++ "/")
  else if machine = "exalearn" then .ok (exalearn_root ++ "/")
  else .error (.unboundLocal "mnist_path")

/-- Claim C8: constructing either dataset with a host selector other
than "local", "colab" or "exalearn" raises unconditionally during the
constructor, with no recovery (in `ProtoPlanetaryDisks` via the
explicit `raise`, in `MNIST` via the `UnboundLocalError` on the unset
`mnist_path`). -/
theorem dataset_init_wrong_host_raises (root machine : String)
    (h1 : machine ≠ "local") (h2 : machine ≠ "colab") (h3 : machine ≠ "exalearn") :
    ProtoPlanetaryDisks_init_path root machine
        = .error (.raisedValue "Wrong host, please select local, colab or exalearn")
    ∧ MNIST_init_path root machine = .error (.unboundLocal "mnist_path") := by
  constructor
  · simp [ProtoPlanetaryDisks_init_path, h1, h2, h3]
  · simp [MNIST_init_path, h1, h2, h3]

/-- Witness for C8 at the unrecognized host "remote". -/
theorem dataset_init_wrong_host_raises_witness :
    ("remote" ≠ "local" ∧ "remote" ≠ "colab" ∧ "remote" ≠ "exalearn")
    ∧ (ProtoPlanetaryDisks_init_path "/home/user" "remote"
        = .error (.raisedValue "Wrong host, please select local, colab or exalearn")
      ∧ MNIST_init_path "/home/user" "remote"
        = .error (.unboundLocal "mnist_path")) :=
  ⟨⟨by decide, by decide, by decide⟩,
    dataset_init_wrong_host_raises "/home/user" "remote"
      (by decide) (by decide) (by decide)⟩

/-- `MNIST.__len__` (dataset.py lines 159-160): the sum of the sizes of
the wrapped torchvision train and test sets (modelled as lists of
samples). -/
def MNIST_len {α : Type} (train test : List α) : ℕ :=
  train.length + test.length

/-- `MNIST.__getitem__` (dataset.py lines 156-157): indexes only
`self.test`; an index at or past `len(self.test)` raises `IndexError`,
modelled as `none`. -/
def MNIST_getitem {α : Type} (train test : List α) (index : ℕ) : Option α :=
  let _ := train
  test.get? index

/-- Claim C10: `MNIST.__len__` reports the combined size of the train
and test sets while `MNIST.__getitem__` indexes only the test set, so
every index `i` with `len(test) ≤ i < __len__()` is valid according to
`__len__` yet fails with an out-of-range error. -/
theorem MNIST_getitem_out_of_range {α : Type} (train test : List α) (i : ℕ)
    (hlow : test.length ≤ i) (hhigh : i < MNIST_len train test) :
    MNIST_len train test = train.length + test.length
    ∧ i < MNIST_len train test
    ∧ MNIST_getitem train test i = none :=
  ⟨rfl, hhigh, List.get?_eq_none.mpr hlow⟩

/-- Witness for C10: one train sample, no test samples, index 0. -/
theorem MNIST_getitem_out_of_range_witness :
    (List.length ([] : List ℕ) ≤ 0 ∧ 0 < MNIST_len [0] ([] : List ℕ))
    ∧ (MNIST_len [0] ([] : List ℕ) = [0].length + List.length ([] : List ℕ)
      ∧ 0 < MNIST_len [0] ([] : List ℕ)
      ∧ MNIST_getitem [0] ([] : List ℕ) 0 = none) :=
  ⟨⟨by decide, by decide⟩,
    MNIST_getitem_out_of_range [0] ([] : List ℕ) 0 (by decide) (by decide)⟩

/-- Parameters of the early-stopping rule (`EarlyStopping(patience,
min_delta)`; the trainer constructs it with `patience=10,
min_delta=.1`). -/
structure EarlyStoppingParams where
  patience : ℕ
  min_delta : ℚ

/-- State of the early-stopping rule: best validation loss so far (not
yet set at construction), the count of consecutive non-improving
observations, and the stop flag read by the trainer as
`early_stopping.early_stop`. -/
structure EarlyStoppingState where
  best : Option ℚ
  counter : ℕ
  early_stop : Bool
  deriving DecidableEq

/-- Modelled from the spec: the `EarlyStopping` callback is imported
from `src.training_callbacks`, a module not present under `src/`; only
its call sites in `Trainer.train` (vae_training.py lines 117-157) are.
Spec section 4.3: on each observed validation loss, if
`best - current > min_delta` record `current` as the new best and reset
the non-improvement counter to zero, otherwise increment the counter;
transition to `stopped` when the counter reaches `patience`; the
stopped state is permanent for the run.  The first observation sets the
initial best. -/
def EarlyStopping_observe (p : EarlyStoppingParams) (s : EarlyStoppingState)
    (current : ℚ) : EarlyStoppingState :=
  if s.early_stop then s
  else
    match s.best with
    | none => ⟨some current, 0, false⟩
    | some b =>
      if p.min_delta < b - current then ⟨some current, 0, false⟩
      else ⟨some b, s.counter + 1, decide (p.patience ≤ s.counter + 1)⟩

/-- Modelled from the spec: the state of a fresh `EarlyStopping`
instance, reset only at construction. -/
def EarlyStopping_init : EarlyStoppingState := ⟨none, 0, false⟩

/-- Modelled from the spec: feeding a sequence of validation losses,
one per epoch, through the early-stopping rule. -/
def EarlyStopping_run (p : EarlyStoppingParams) (losses : List ℚ) : EarlyStoppingState :=
  losses.foldl (EarlyStopping_observe p) EarlyStopping_init

/-- Claim C4: from the monitoring state, an observation improving the
best by more than `min_delta` records the new best and resets the
counter; any other observation increments the counter, stopping exactly
when it reaches `patience`; the stopped state is permanent.  With
`patience = 3`, `min_delta = 0.1`, the sequence
`[1.0, 0.95, 0.95, 0.95]` stops at the 4th value (and not before) and
`[1.0, 0.8, 0.6, 0.4]` never stops. -/
theorem EarlyStopping_spec :
    (∀ (p : EarlyStoppingParams) (s : EarlyStoppingState) (c b : ℚ),
        s.early_stop = false → s.best = some b → p.min_delta < b - c →
        EarlyStopping_observe p s c = ⟨some c, 0, false⟩)
    ∧ (∀ (p : EarlyStoppingParams) (s : EarlyStoppingState) (c b : ℚ),
        s.early_stop = false → s.best = some b → ¬ p.min_delta < b - c →
        EarlyStopping_observe p s c
          = ⟨some b, s.counter + 1, decide (p.patience ≤ s.counter + 1)⟩)
    ∧ (∀ (p : EarlyStoppingParams) (s : EarlyStoppingState) (c : ℚ),
        s.early_stop = true → EarlyStopping_observe p s c = s)
    ∧ (EarlyStopping_run ⟨3, 0.1⟩ [1, 0.95, 0.95, 0.95]).early_stop = true
    ∧ (EarlyStopping_run ⟨3, 0.1⟩ [1, 0.95, 0.95]).early_stop = false
    ∧ (EarlyStopping_run ⟨3, 0.1⟩ [1, 0.8, 0.6, 0.4]).early_stop = false := by
  refine ⟨?_, ?_, ?_, ?_, ?_, ?_⟩
  · intro p s c b hs hb himp
    simp [EarlyStopping_observe, hs, hb, himp]
  · intro p s c b hs hb himp
    simp [EarlyStopping_observe, hs, hb, himp]
  · intro p s c hs
    simp [EarlyStopping_observe, hs]
  · norm_num [EarlyStopping_run, EarlyStopping_init, EarlyStopping_observe, List.foldl]
  · norm_num [EarlyStopping_run, EarlyStopping_init, EarlyStopping_observe, List.foldl]
  · norm_num [EarlyStopping_run, EarlyStopping_init, EarlyStopping_observe, List.foldl]

/-- Witness for C4: one improving observation from a concrete
monitoring state (best 1, counter 2) resets the counter, and one
permanence check on a concrete stopped state. -/
theorem EarlyStopping_spec_witness :
    ((⟨some 1, 2, false⟩ : EarlyStoppingState).early_stop = false
      ∧ (⟨some 1, 2, false⟩ : EarlyStoppingState).best = some 1
      ∧ (0.1 : ℚ) < 1 - 0.5
      ∧ EarlyStopping_observe ⟨3, 0.1⟩ ⟨some 1, 2, false⟩ 0.5 = ⟨some 0.5, 0, false⟩)
    ∧ ((⟨some 1, 0, true⟩ : EarlyStoppingState).early_stop = true
      ∧ EarlyStopping_observe ⟨3, 0.1⟩ ⟨some 1, 0, true⟩ 0.5 = ⟨some 1, 0, true⟩) :=
  ⟨⟨rfl, rfl, by norm_num,
      EarlyStopping_spec.1 ⟨3, 0.1⟩ ⟨some 1, 2, false⟩ 0.5 1 rfl rfl (by norm_num)⟩,
    ⟨rfl, EarlyStopping_spec.2.2.1 ⟨3, 0.1⟩ ⟨some 1, 0, true⟩ 0.5 rfl⟩⟩

/-- One batch iteration of an epoch loop, carrying the loader output
`img` (the target `x`) together with the outputs `xhat, mu, logvar`
that `self.model(img)` produced for it (the model itself is external
to this code). -/
structure Batch where
  x : List ℝ
  xhat : List ℝ
  mu : List ℝ
  logvar : List ℝ

/-- `Trainer._train_epoch` (vae_training.py lines 55-90), restricted to
the state the loss bookkeeping touches: one optimization step per batch
of the loader, each incrementing `num_steps` and calling `_loss` with
`train=True` (the backward pass, optimizer step and the logging calls
do not touch the histories). -/
noncomputable def Trainer_train_epoch (st : TrainerState) (batches : List Batch)
    (epoch : ℕ) : TrainerState :=
  batches.foldl
    (fun s b =>
      (Trainer_loss { s with num_steps := s.num_steps + 1 }
        b.x b.xhat b.mu b.logvar true epoch).2)
    st

/-- `Trainer._test_epoch` (vae_training.py lines 92-115), restricted to
the state the loss bookkeeping touches: one evaluation per batch of the
test loader, each calling `_loss` with `train=False` (no gradient or
optimizer work, and `num_steps` is not incremented). -/
noncomputable def Trainer_test_epoch (st : TrainerState) (batches : List Batch)
    (epoch : ℕ) : TrainerState :=
  batches.foldl
    (fun s b => (Trainer_loss s b.x b.xhat b.mu b.logvar false epoch).2)
    st

/-- `new` extends `old` by exactly `n` appended entries in each of the
three loss-history sequences, keeping `old` as a prefix (append-only). -/
def HistExtends (old new : LossHist) (n : ℕ) : Prop :=
  new.loss.length = old.loss.length + n
  ∧ new.mse.length = old.mse.length + n
  ∧ new.kld.length = old.kld.length + n
  ∧ old.loss <+: new.loss ∧ old.mse <+: new.mse ∧ old.kld <+: new.kld

lemma histExtends_push (h : LossHist) (lossV mseV kldV : ℝ) :
    HistExtends h (pushLoss h lossV mseV kldV) 1 := by
  refine ⟨?_, ?_, ?_, ?_, ?_, ?_⟩ <;>
    simp [pushLoss, List.prefix_append]

lemma histExtends_trans {a b c : LossHist} {n m : ℕ}
    (h1 : HistExtends a b n) (h2 : HistExtends b c m) :
    HistExtends a c (n + m) := by
  obtain ⟨l1, m1, k1, pl1, pm1, pk1⟩ := h1
  obtain ⟨l2, m2, k2, pl2, pm2, pk2⟩ := h2
  exact ⟨by omega, by omega, by omega,
    pl1.trans pl2, pm1.trans pm2, pk1.trans pk2⟩

lemma histExtends_refl (a : LossHist) : HistExtends a a 0 :=
  ⟨rfl, rfl, rfl, List.prefix_refl _, List.prefix_refl _, List.prefix_refl _⟩

lemma Trainer_loss_true_state (st : TrainerState) (x xhat mu logvar : List ℝ) (ep : ℕ) :
    HistExtends st.train_loss ((Trainer_loss st x xhat mu logvar true ep).2).train_loss 1
    ∧ ((Trainer_loss st x xhat mu logvar true ep).2).test_loss = st.test_loss := by
  exact ⟨histExtends_push _ _ _ _, rfl⟩

lemma Trainer_loss_false_state (st : TrainerState) (x xhat mu logvar : List ℝ) (ep : ℕ) :
    HistExtends st.test_loss ((Trainer_loss st x xhat mu logvar false ep).2).test_loss 1
    ∧ ((Trainer_loss st x xhat mu logvar false ep).2).train_loss = st.train_loss := by
  exact ⟨histExtends_push _ _ _ _, rfl⟩

lemma Trainer_train_epoch_hist : ∀ (batches : List Batch) (st : TrainerState) (ep : ℕ),
    HistExtends st.train_loss (Trainer_train_epoch st batches ep).train_loss batches.length
    ∧ (Trainer_train_epoch st batches ep).test_loss = st.test_loss
  | [], st, ep => ⟨histExtends_refl _, rfl⟩
  | b :: bs, st, ep => by
    have hstep := Trainer_loss_true_state
      { st with num_steps := st.num_steps + 1 } b.x b.xhat b.mu b.logvar ep
    have ih := Trainer_train_epoch_hist bs
      ((Trainer_loss { st with num_steps := st.num_steps + 1 }
        b.x b.xhat b.mu b.logvar true ep).2) ep
    refine ⟨?_, ?_⟩
    · have := histExtends_trans hstep.1 ih.1
      simpa [Trainer_train_epoch, List.length_cons, Nat.add_comm] using this
    · show (Trainer_train_epoch st (b :: bs) ep).test_loss = st.test_loss
      calc (Trainer_train_epoch st (b :: bs) ep).test_loss
          = (Trainer_train_epoch ((Trainer_loss { st with num_steps := st.num_steps + 1 }
              b.x b.xhat b.mu b.logvar true ep).2) bs ep).test_loss := rfl
        _ = ((Trainer_loss { st with num_steps := st.num_steps + 1 }
              b.x b.xhat b.mu b.logvar true ep).2).test_loss := ih.2
        _ = st.test_loss := hstep.2

lemma Trainer_test_epoch_hist : ∀ (batches : List Batch) (st : TrainerState) (ep : ℕ),
    HistExtends st.test_loss (Trainer_test_epoch st batches ep).test_loss batches.length
    ∧ (Trainer_test_epoch st batches ep).train_loss = st.train_loss
  | [], st, ep => ⟨histExtends_refl _, rfl⟩
  | b :: bs, st, ep => by
    have hstep := Trainer_loss_false_state st b.x b.xhat b.mu b.logvar ep
    have ih := Trainer_test_epoch_hist bs
      ((Trainer_loss st b.x b.xhat b.mu b.logvar false ep).2) ep
    refine ⟨?_, ?_⟩
    · have := histExtends_trans hstep.1 ih.1
      simpa [Trainer_test_epoch, List.length_cons, Nat.add_comm] using this
    · show (Trainer_test_epoch st (b :: bs) ep).train_loss = st.train_loss
      calc (Trainer_test_epoch st (b :: bs) ep).train_loss
          = (Trainer_test_epoch ((Trainer_loss st
              b.x b.xhat b.mu b.logvar false ep).2) bs ep).train_loss := rfl
        _ = ((Trainer_loss st b.x b.xhat b.mu b.logvar false ep).2).train_loss := ih.2
        _ = st.train_loss := hstep.2

/-- Claim C6: each of the three loss-history sequences is appended
exactly once per call of `_loss` — hence exactly once per optimization
step during a training epoch and exactly once per batch evaluation
during a test epoch — and the histories are append-only: the old
sequences remain prefixes of the new ones, and an epoch of one kind
leaves the other kind's histories untouched. -/
theorem Trainer_loss_histories_append_only :
    (∀ (st : TrainerState) (x xhat mu logvar : List ℝ) (ep : ℕ),
        HistExtends st.train_loss
          ((Trainer_loss st x xhat mu logvar true ep).2).train_loss 1
        ∧ ((Trainer_loss st x xhat mu logvar true ep).2).test_loss = st.test_loss)
    ∧ (∀ (st : TrainerState) (x xhat mu logvar : List ℝ) (ep : ℕ),
        HistExtends st.test_loss
          ((Trainer_loss st x xhat mu logvar false ep).2).test_loss 1
        ∧ ((Trainer_loss st x xhat mu logvar false ep).2).train_loss = st.train_loss)
    ∧ (∀ (st : TrainerState) (batches : List Batch) (ep : ℕ),
        HistExtends st.train_loss
          (Trainer_train_epoch st batches ep).train_loss batches.length
        ∧ (Trainer_train_epoch st batches ep).test_loss = st.test_loss)
    ∧ (∀ (st : TrainerState) (batches : List Batch) (ep : ℕ),
        HistExtends st.test_loss
          (Trainer_test_epoch st batches ep).test_loss batches.length
        ∧ (Trainer_test_epoch st batches ep).train_loss = st.train_loss) :=
  ⟨Trainer_loss_true_state, Trainer_loss_false_state,
    fun st batches ep => Trainer_train_epoch_hist batches st ep,
    fun st batches ep => Trainer_test_epoch_hist batches st ep⟩
